import Mathlib

/-!
Shallow embedding of the retro ADS-B radar core (radar.py): geodesic math,
record parsing, the refresh loop, the LRU glyph cache, the TTL coordinate
cache, and the change-aware sorted aircraft manager.  Python floats are
modelled as rationals; the transcendental functions used by the haversine
formula are abstracted as an explicit operation table (TrigOps) threaded
through the definitions, so that both the scalar and the batch code path
are expressed over the same operations exactly as in the source.
-/

/-- Python int() applied to a float: truncation toward zero. -/
def pyint (q : ℚ) : ℤ := if 0 ≤ q then ⌊q⌋ else ⌈q⌉

/-- Python float modulo: result has the sign of the divisor (for positive
divisor this is a - b * floor (a / b)). -/
def pymod (a b : ℚ) : ℚ := a - b * (⌊a / b⌋ : ℤ)

/-- Table of the transcendental operations used by radar.py (math.sin,
math.cos, math.asin, math.sqrt, math.atan2, math.radians, math.degrees and
their NumPy counterparts), abstracted over the rationals. -/
structure TrigOps where
  sin : ℚ → ℚ
  cos : ℚ → ℚ
  asin : ℚ → ℚ
  sqrt : ℚ → ℚ
  atan2 : ℚ → ℚ → ℚ
  radians : ℚ → ℚ
  degrees : ℚ → ℚ

/-- A trivial operation table used to evaluate the embedding on concrete
inputs in witnesses. -/
def toyTrig : TrigOps :=
  { sin := fun q => q, cos := fun q => q, asin := fun q => q,
    sqrt := fun q => q, atan2 := fun y _ => y,
    radians := fun q => q, degrees := fun q => q }

/-- Embedding of calculate_distance_bearing of radar.py: haversine distance
in nautical miles and initial bearing in degrees normalized to [0, 360). -/
def calculate_distance_bearing (T : TrigOps) (lat1 lon1 lat2 lon2 : ℚ) : ℚ × ℚ :=
  let lat1_rad := T.radians lat1
  let lon1_rad := T.radians lon1
  let lat2_rad := T.radians lat2
  let lon2_rad := T.radians lon2
  let dlat := lat2_rad - lat1_rad
  let dlon := lon2_rad - lon1_rad
  let a := T.sin (dlat / 2) ^ 2 + T.cos lat1_rad * T.cos lat2_rad * T.sin (dlon / 2) ^ 2
  let distance_km := 2 * T.asin (T.sqrt a) * 6371
  let distance_nm := distance_km * 0.539957
  let y := T.sin dlon * T.cos lat2_rad
  let x := T.cos lat1_rad * T.sin lat2_rad - T.sin lat1_rad * T.cos lat2_rad * T.cos dlon
  let bearing := pymod (T.degrees (T.atan2 y x) + 360) 360
  (distance_nm, bearing)

/-- Elementwise combination of three lists, mirroring NumPy elementwise
arithmetic over three aligned arrays. -/
def zipWith3 (f : α → β → γ → δ) : List α → List β → List γ → List δ
  | a :: as, b :: bs, c :: cs => f a b c :: zipWith3 f as bs cs
  | _, _, _ => []

/-- Body of batch_calculate_distances_bearings of radar.py (the NumPy code
path): each vectorized NumPy statement is modelled as the corresponding
elementwise list operation. -/
def batch_body (T : TrigOps) (aircraft_positions : List (ℚ × ℚ)) (center_lat center_lon : ℚ) :
    List (ℚ × ℚ) :=
  let lats := aircraft_positions.map Prod.fst
  let lons := aircraft_positions.map Prod.snd
  let lat1_rad := T.radians center_lat
  let lon1_rad := T.radians center_lon
  let lat2_rad := lats.map T.radians
  let lon2_rad := lons.map T.radians
  let dlat := lat2_rad.map (fun v => v - lat1_rad)
  let dlon := lon2_rad.map (fun v => v - lon1_rad)
  let a := zipWith3
    (fun dla l2 dlo => T.sin (dla / 2) ^ 2 + T.cos lat1_rad * T.cos l2 * T.sin (dlo / 2) ^ 2)
    dlat lat2_rad dlon
  let distances_km := a.map (fun v => 2 * T.asin (T.sqrt v) * 6371)
  let distances_nm := distances_km.map (fun v => v * 0.539957)
  let y := List.zipWith (fun dlo l2 => T.sin dlo * T.cos l2) dlon lat2_rad
  let x := List.zipWith
    (fun l2 dlo => T.cos lat1_rad * T.sin l2 - T.sin lat1_rad * T.cos l2 * T.cos dlo)
    lat2_rad dlon
  let bearings := List.zipWith (fun yv xv => pymod (T.degrees (T.atan2 yv xv) + 360) 360) y x
  List.zip distances_nm bearings

/-- Embedding of batch_calculate_distances_bearings of radar.py, including
its guard: when the NumPy batch path is disabled or the input is empty the
function returns the empty list. -/
def batch_calculate_distances_bearings (useNumpyBatchOps : Bool) (T : TrigOps)
    (aircraft_positions : List (ℚ × ℚ)) (center_lat center_lon : ℚ) : List (ℚ × ℚ) :=
  if useNumpyBatchOps = false ∨ aircraft_positions = [] then []
  else batch_body T aircraft_positions center_lat center_lon

/-- Python str.lower, character by character. -/
def pyLower (s : String) : String := ⟨s.data.map Char.toLower⟩

/-- Python str.strip with no argument: remove leading and trailing
whitespace. -/
def pyStrip (s : String) : String :=
  ⟨(((s.data.dropWhile Char.isWhitespace).reverse).dropWhile Char.isWhitespace).reverse⟩

/-- Python slicing s[:n]: the first n characters. -/
def pyTake (s : String) (n : Nat) : String := ⟨s.data.take n⟩

/-- Python str.startswith for a single prefix. -/
def pyStartsWith (s p : String) : Bool := p.data.isPrefixOf s.data

/-- The configuration values of radar.py that the embedded core reads. -/
structure Config where
  MIL_PREFIX_LIST : List String
  LAT : ℚ
  LON : ℚ
  RADIUS_NM : ℤ
  ENABLE_COORDINATE_CACHE : Bool
  COORDINATE_CACHE_TTL : ℚ
deriving DecidableEq

/-- One raw feed record: a mapping with the optional keys that radar.py
reads (lat, lon, hex, flight, alt_baro, gs, track). -/
structure RawAircraft where
  lat : Option ℚ
  lon : Option ℚ
  hex : Option String
  flight : Option String
  alt_baro : Option ℤ
  gs : Option ℚ
  track : Option ℚ
deriving DecidableEq

/-- Embedding of the Aircraft dataclass of radar.py. -/
structure Aircraft where
  hex_code : String
  callsign : String
  lat : ℚ
  lon : ℚ
  altitude : ℤ
  speed : ℤ
  track : ℚ
  distance : ℚ
  bearing : ℚ
  is_military : Bool
deriving DecidableEq

/-- Outcome of parse_aircraft: a record, a silent drop (Python None), or an
uncaught KeyError raised by the subscript access to the hex key. -/
inductive ParseOutcome where
  | dropped
  | keyError
  | parsed (a : Aircraft)
deriving DecidableEq

/-- Embedding of parse_aircraft of radar.py: drop on missing lat or lon,
compute distance and bearing, drop when outside the configured radius, then
read the hex key by subscript (raising on absence) and build the record
with defaulted altitude, speed and track, the flight label stripped and
truncated to 8 characters, and the prefix-based military classification. -/
def parse_aircraft (cfg : Config) (T : TrigOps) (data : RawAircraft) : ParseOutcome :=
  match data.lat, data.lon with
  | some lat, some lon =>
    let db := calculate_distance_bearing T cfg.LAT cfg.LON lat lon
    if (cfg.RADIUS_NM : ℚ) < db.1 then ParseOutcome.dropped
    else
      match data.hex with
      | none => ParseOutcome.keyError
      | some hx =>
        let hex_code := pyLower hx
        let mil_prefixes := cfg.MIL_PREFIX_LIST.map pyLower
        let is_military := mil_prefixes.any (fun p => pyStartsWith hex_code p)
        ParseOutcome.parsed
          { hex_code := hex_code
            callsign := pyTake (pyStrip (data.flight.getD "UNKNOWN")) 8
            lat := lat
            lon := lon
            altitude := data.alt_baro.getD 0
            speed := pyint (data.gs.getD 0)
            track := data.track.getD 0
            distance := db.1
            bearing := db.2
            is_military := is_military }
  | _, _ => ParseOutcome.dropped

/-- Collect the parsed aircraft of a raw record list in order, propagating
an uncaught KeyError, as the loop in AircraftTracker.fetch_data does. -/
def collect_aircraft (cfg : Config) (T : TrigOps) : List RawAircraft → Except Unit (List Aircraft)
  | [] => Except.ok []
  | d :: rest =>
    match parse_aircraft cfg T d with
    | ParseOutcome.keyError => Except.error ()
    | ParseOutcome.dropped => collect_aircraft cfg T rest
    | ParseOutcome.parsed a => Except.map (fun l => a :: l) (collect_aircraft cfg T rest)

/-- Embedding of AircraftTracker.fetch_data of radar.py.  The fetch outcome
is passed explicitly: none models a transport failure, which the source
catches and turns into an empty list; some gives the decoded raw records,
which are parsed one by one. -/
def fetch_data (cfg : Config) (T : TrigOps) (resp : Option (List RawAircraft)) :
    Except Unit (List Aircraft) :=
  match resp with
  | none => Except.ok []
  | some raws => collect_aircraft cfg T raws

/-- State owned by AircraftTracker of radar.py. -/
structure TrackerState where
  aircraft : List Aircraft
  status : String
  last_update : ℚ
deriving DecidableEq

/-- One iteration of AircraftTracker.update_loop of radar.py: stamp the
tick, fetch, and either replace the live set (status ACTIVE) or keep the
previous set (status NO CONTACTS); an uncaught parse error propagates. -/
def update_tick (cfg : Config) (T : TrigOps) (s : TrackerState) (now : ℚ)
    (resp : Option (List RawAircraft)) : Except Unit TrackerState :=
  match fetch_data cfg T resp with
  | Except.error e => Except.error e
  | Except.ok aircraft_list =>
    if aircraft_list ≠ [] then Except.ok ⟨aircraft_list, "ACTIVE", now⟩
    else Except.ok ⟨s.aircraft, "NO CONTACTS", now⟩

/-- Lookup in an association list modelling a Python dict (first match). -/
def alookup [DecidableEq K] : List (K × V) → K → Option V
  | [], _ => none
  | p :: ps, k => if p.1 = k then some p.2 else alookup ps k

/-- Deletion of a key from an association list (Python del d[k]): removes
the first entry with that key. -/
def aerase [DecidableEq K] : List (K × V) → K → List (K × V)
  | [], _ => []
  | p :: ps, k => if p.1 = k then ps else p :: aerase ps k

/-- Removal of the first occurrence of an element from a list (Python
list.remove). -/
def lerase [DecidableEq K] : List K → K → List K
  | [], _ => []
  | x :: xs, k => if x = k then xs else x :: lerase xs k

/-- Python dict assignment d[k] = v: replace the value in place when the
key is present, otherwise append a new entry. -/
def dictInsert [DecidableEq K] (l : List (K × V)) (k : K) (v : V) : List (K × V) :=
  if (alookup l k).isSome then l.map (fun p => if p.1 = k then (k, v) else p)
  else l ++ [(k, v)]

/-- State of OptimizedTextCache of radar.py: the glyph dict, the LRU access
order list, the capacity, and the last compaction timestamp. -/
structure TextCache (K V : Type) where
  cache : List (K × V)
  access_order : List K
  max_size : Nat
  last_clear : ℚ
deriving DecidableEq

/-- A fresh OptimizedTextCache as built by its constructor. -/
def mkTextCache (K V : Type) (max_size : Nat) (t0 : ℚ) : TextCache K V :=
  ⟨[], [], max_size, t0⟩

/-- Embedding of OptimizedTextCache.render of radar.py.  The rendering
collaborator (font.render) is an explicit function, the global enable flag
an explicit argument.  On a hit the key moves to the most recently used
end; on a miss the fresh glyph is inserted and, when the dict exceeds the
capacity, the head of the access order list is popped and deleted. -/
def render [DecidableEq K] (renderFn : K → V) (enabled : Bool) (c : TextCache K V) (key : K) :
    V × TextCache K V :=
  if enabled = false then (renderFn key, c) else
  match alookup c.cache key with
  | some v => (v, ⟨c.cache, lerase c.access_order key ++ [key], c.max_size, c.last_clear⟩)
  | none =>
    let surface := renderFn key
    let cache1 := c.cache ++ [(key, surface)]
    let order1 := c.access_order ++ [key]
    if c.max_size < cache1.length then
      let oldest := order1.headD key
      (surface, ⟨aerase cache1 oldest, order1.tail, c.max_size, c.last_clear⟩)
    else (surface, ⟨cache1, order1, c.max_size, c.last_clear⟩)

/-- Embedding of OptimizedTextCache.clear_old of radar.py: if more than 300
seconds have passed since the last compaction and the dict holds more than
100 entries, keep only the 100 most recently used entries (the tail of the
access order list) and restamp. -/
def clear_old [DecidableEq K] (c : TextCache K V) (now : ℚ) : TextCache K V :=
  if 300 < now - c.last_clear then
    if 100 < c.cache.length then
      let to_keep := c.access_order.drop (c.access_order.length - 100)
      ⟨to_keep.filterMap (fun k => (alookup c.cache k).map (fun v => (k, v))),
       to_keep, c.max_size, now⟩
    else ⟨c.cache, c.access_order, c.max_size, now⟩
  else c

/-- One call against the glyph cache: a render of some key or a compaction
pass at some time. -/
inductive CacheOp (K : Type) where
  | renderOp (key : K)
  | clearOldOp (now : ℚ)

/-- Apply one glyph cache call (with the cache enabled). -/
def applyCacheOp [DecidableEq K] (renderFn : K → V) (c : TextCache K V) :
    CacheOp K → TextCache K V
  | CacheOp.renderOp k => (render renderFn true c k).2
  | CacheOp.clearOldOp t => clear_old c t

/-- Apply a sequence of glyph cache calls from left to right. -/
def applyCacheOps [DecidableEq K] (renderFn : K → V) (c : TextCache K V)
    (ops : List (CacheOp K)) : TextCache K V :=
  ops.foldl (applyCacheOp renderFn) c

/-- The glyph cache invariant: entry count bounded by the capacity, keys of
the dict pairwise distinct, and the access order list a permutation of the
cached keys (hence it holds each cached key exactly once and no others). -/
def CacheInvariant [DecidableEq K] (c : TextCache K V) : Prop :=
  c.cache.length ≤ c.max_size ∧ (c.cache.map Prod.fst).Nodup ∧
    c.access_order.Perm (c.cache.map Prod.fst)

/-- State of CoordinateCache of radar.py: the position dict, the timestamp
dict, the precomputed cosine of the origin latitude, and the precomputed
range in kilometers. -/
structure CoordinateCache where
  cache : List (String × Option (ℤ × ℤ))
  last_update : List (String × ℚ)
  lat_cos_cache : ℚ
  range_km : ℚ
deriving DecidableEq

/-- A fresh CoordinateCache as built by its constructor; cosLat models
math.cos(math.radians(LAT)), replaced by 1 when the origin latitude is 0. -/
def mkCoordinateCache (cfg : Config) (cosLat : ℚ) : CoordinateCache :=
  ⟨[], [], if cfg.LAT ≠ 0 then cosLat else 1, (cfg.RADIUS_NM : ℚ) * 1.852⟩

/-- Embedding of CoordinateCache._calculate_pos of radar.py: equirectangular
projection of the lat/lon delta from the configured origin onto the scope,
truncated to integer pixels, or none when outside the display circle. -/
def calculate_pos (c : CoordinateCache) (cfg : Config)
    (lat lon center_x center_y radius : ℚ) : Option (ℤ × ℤ) :=
  let lat_km := (lat - cfg.LAT) * 111
  let lon_km := (lon - cfg.LON) * 111 * c.lat_cos_cache
  let x := center_x + lon_km / c.range_km * radius
  let y := center_y - lat_km / c.range_km * radius
  let dx := x - center_x
  let dy := y - center_y
  if dx * dx + dy * dy ≤ radius * radius then some (pyint x, pyint y) else none

/-- Embedding of CoordinateCache.get_screen_pos of radar.py: on a hit whose
stamp is younger than the TTL return the memoized position unconditionally;
otherwise recompute from the arguments, store and restamp. -/
def get_screen_pos (cfg : Config) (c : CoordinateCache) (aircraft_id : String)
    (lat lon center_x center_y radius now : ℚ) : Option (ℤ × ℤ) × CoordinateCache :=
  if cfg.ENABLE_COORDINATE_CACHE = false then
    (calculate_pos c cfg lat lon center_x center_y radius, c)
  else
    match alookup c.cache aircraft_id with
    | some v =>
      if now - ((alookup c.last_update aircraft_id).getD 0) < cfg.COORDINATE_CACHE_TTL then
        (v, c)
      else
        let pos := calculate_pos c cfg lat lon center_x center_y radius
        (pos, ⟨dictInsert c.cache aircraft_id pos, dictInsert c.last_update aircraft_id now,
               c.lat_cos_cache, c.range_km⟩)
    | none =>
      let pos := calculate_pos c cfg lat lon center_x center_y radius
      (pos, ⟨dictInsert c.cache aircraft_id pos, dictInsert c.last_update aircraft_id now,
             c.lat_cos_cache, c.range_km⟩)

/-- State of SortedAircraftManager of radar.py. -/
structure SortedAircraftManager where
  aircraft_dict : List (String × Aircraft)
  sorted_list : List Aircraft
  needs_resort : Bool
deriving DecidableEq

/-- The ordering used by the re-sort: ascending distance. -/
def byDistance (a b : Aircraft) : Prop := a.distance ≤ b.distance

instance : DecidableRel byDistance :=
  fun a b => (inferInstance : Decidable (a.distance ≤ b.distance))

instance : IsTotal Aircraft byDistance := ⟨fun a b => le_total a.distance b.distance⟩

instance : IsTrans Aircraft byDistance := ⟨fun _ _ _ h h2 => le_trans h h2⟩

/-- The Python dict comprehension keyed by hex code: entries in first
occurrence order, a later duplicate overwriting the earlier value. -/
def buildDict (l : List Aircraft) : List (String × Aircraft) :=
  l.foldl (fun d a => dictInsert d a.hex_code a) []

/-- Python set equality of the key sets of two dicts. -/
def sameKeys (d1 d2 : List (String × Aircraft)) : Bool :=
  (d1.map Prod.fst).all (fun k => decide (k ∈ d2.map Prod.fst)) &&
    (d2.map Prod.fst).all (fun k => decide (k ∈ d1.map Prod.fst))

/-- The distance jitter check of update_aircraft: some entry of the new
dict whose old counterpart exists and whose distance moved by more than
0.5 nautical miles. -/
def distanceChanged (new_dict old_dict : List (String × Aircraft)) : Bool :=
  new_dict.any (fun p =>
    match alookup old_dict p.1 with
    | some old_aircraft => decide ((0.5 : ℚ) < |p.2.distance - old_aircraft.distance|)
    | none => false)

/-- Embedding of SortedAircraftManager.update_aircraft of radar.py: mark a
re-sort if the key sets differ, else if some common identity moved by more
than 0.5 NM; replace the dict; re-sort (stable, ascending distance) only
when marked. -/
def update_aircraft (s : SortedAircraftManager) (new_aircraft_list : List Aircraft) :
    SortedAircraftManager :=
  let new_dict := buildDict new_aircraft_list
  let needs1 :=
    if sameKeys new_dict s.aircraft_dict = false then true
    else if distanceChanged new_dict s.aircraft_dict then true
    else s.needs_resort
  if needs1 then
    ⟨new_dict, List.insertionSort byDistance new_aircraft_list, false⟩
  else
    ⟨new_dict, s.sorted_list, needs1⟩

/-- Embedding of SortedAircraftManager.get_sorted_aircraft of radar.py.
The Python guard is a truthiness test, so both None and 0 fall through to
returning the whole list. -/
def get_sorted_aircraft (s : SortedAircraftManager) (max_count : Option Nat) : List Aircraft :=
  match max_count with
  | some n => if n ≠ 0 then s.sorted_list.take n else s.sorted_list
  | none => s.sorted_list

/-- A concrete configuration with the defaults of radar.py (military prefix
7CF, origin 0/0, radius 60 NM, caches enabled, TTL 1 s), used to evaluate
the embedding in witnesses. -/
def wCfg : Config := ⟨["7CF"], 0, 0, 60, true, 1⟩

/-- A concrete in-range aircraft used in witnesses. -/
def wA : Aircraft := ⟨"abc", "ABC", 0, 0, 0, 0, 0, 1, 0, false⟩

theorem batch_body_eq_map (T : TrigOps) (clat clon : ℚ) :
    ∀ ps : List (ℚ × ℚ), batch_body T ps clat clon
      = ps.map (fun p => calculate_distance_bearing T clat clon p.1 p.2)
  | [] => rfl
  | p :: ps => by
    have ih := batch_body_eq_map T clat clon ps
    simp only [batch_body, List.map_cons, zipWith3, List.zipWith_cons_cons,
      List.zip_cons_cons, calculate_distance_bearing] at ih ⊢
    rw [ih]

/-- C7 (amended): with the NumPy batch path enabled, the batch function
returns exactly the elementwise scalar results (exact equality over the
shared operation table, hence within any tolerance), and the empty input
yields the empty output for any configuration.  With the path disabled the
function instead returns the empty list for every input. -/
theorem batch_matches_scalar_when_enabled (T : TrigOps) (u : Bool)
    (ps : List (ℚ × ℚ)) (clat clon : ℚ) :
    batch_calculate_distances_bearings true T ps clat clon
        = ps.map (fun p => calculate_distance_bearing T clat clon p.1 p.2)
      ∧ batch_calculate_distances_bearings u T [] clat clon = [] := by
  constructor
  · cases ps with
    | nil => rfl
    | cons p ps =>
      rw [batch_calculate_distances_bearings, if_neg (by simp), batch_body_eq_map]
  · rw [batch_calculate_distances_bearings, if_pos (Or.inr rfl)]

/-- C7 (counterexample): with the batch path disabled, a one-point input
yields zero results rather than one result per input point. -/
theorem batch_disabled_counterexample :
    batch_calculate_distances_bearings false toyTrig [(1, 2)] 0 0 = []
      ∧ batch_calculate_distances_bearings false toyTrig [(1, 2)] 0 0
          ≠ [calculate_distance_bearing toyTrig 0 0 1 2] := by
  refine ⟨rfl, ?_⟩
  intro h
  simp [batch_calculate_distances_bearings] at h

/-- C1: on a refresh tick, a failed fetch is caught and yields the empty
list, and a tick whose fetch yields no valid record sets the status to
NO CONTACTS and leaves the live set exactly as it was; a tick whose fetch
yields one or more valid records sets the status to ACTIVE and replaces
the live set in full with the fetched records. -/
theorem refresh_tick_behavior (cfg : Config) (T : TrigOps) (s : TrackerState)
    (now : ℚ) (resp : Option (List RawAircraft)) :
    (resp = none → update_tick cfg T s now resp
        = Except.ok ⟨s.aircraft, "NO CONTACTS", now⟩)
      ∧ (fetch_data cfg T resp = Except.ok [] → update_tick cfg T s now resp
          = Except.ok ⟨s.aircraft, "NO CONTACTS", now⟩)
      ∧ (∀ l, fetch_data cfg T resp = Except.ok l → l ≠ [] →
          update_tick cfg T s now resp = Except.ok ⟨l, "ACTIVE", now⟩) := by
  refine ⟨?_, ?_, ?_⟩
  · intro h
    subst h
    rfl
  · intro h
    simp [update_tick, h]
  · intro l h hne
    simp [update_tick, h, hne]

/-- C1 (witness): a concrete failed fetch retains the one-aircraft live set
and reports NO CONTACTS. -/
theorem refresh_tick_behavior_witness :
    update_tick wCfg toyTrig ⟨[wA], "ACTIVE", 0⟩ 5 none
      = Except.ok ⟨[wA], "NO CONTACTS", 5⟩ :=
  (refresh_tick_behavior wCfg toyTrig ⟨[wA], "ACTIVE", 0⟩ 5 none).1 rfl

unseal Rat.mul Rat.add Rat.sub Rat.inv Rat.ofScientific in
/-- C3 (counterexample): a raw record carrying lat and lon (and nothing
else) makes the parser raise a KeyError on the hex subscript instead of
returning a record or nothing. -/
theorem parse_missing_hex_raises :
    parse_aircraft wCfg toyTrig ⟨some 0, some 0, none, none, none, none, none⟩
      = ParseOutcome.keyError := by decide

/-- C3 (amended): for every raw record that carries the hex key, the parser
returns a record or nothing and never raises; records lacking the hex key
can raise a KeyError when they reach the hex subscript. -/
theorem parse_total_with_hex (cfg : Config) (T : TrigOps) (data : RawAircraft)
    (h : data.hex ≠ none) :
    parse_aircraft cfg T data = ParseOutcome.dropped
      ∨ ∃ a, parse_aircraft cfg T data = ParseOutcome.parsed a := by
  rcases hlat : data.lat with _ | lat
  · left
    simp [parse_aircraft, hlat]
  rcases hlon : data.lon with _ | lon
  · left
    simp [parse_aircraft, hlat, hlon]
  rcases hhex : data.hex with _ | hx
  · exact absurd hhex h
  rw [parse_aircraft]
  simp only [hlat, hlon, hhex]
  split
  · exact Or.inl rfl
  · exact Or.inr ⟨_, rfl⟩

/-- C3 (witness): a concrete record with only lat, lon and hex parses
without error. -/
theorem parse_total_with_hex_witness :
    (RawAircraft.mk (some 0) (some 0) (some "ABC") none none none none).hex ≠ none
      ∧ (parse_aircraft wCfg toyTrig ⟨some 0, some 0, some "ABC", none, none, none, none⟩
            = ParseOutcome.dropped
          ∨ ∃ a, parse_aircraft wCfg toyTrig ⟨some 0, some 0, some "ABC", none, none, none, none⟩
              = ParseOutcome.parsed a) :=
  ⟨by decide, parse_total_with_hex wCfg toyTrig _ (by decide)⟩

unseal Rat.mul Rat.add Rat.sub Rat.inv Rat.ofScientific in
/-- C4 (counterexample): a flight label with leading whitespace is stripped
before truncation, so the produced label is not the input label truncated
to 8 characters. -/
theorem parse_strip_counterexample :
    parse_aircraft wCfg toyTrig ⟨some 0, some 0, some "ABC", some " ABCDEFGH", none, none, none⟩
        = ParseOutcome.parsed ⟨"abc", "ABCDEFGH", 0, 0, 0, 0, 0, 0, 0, false⟩
      ∧ "ABCDEFGH" ≠ pyTake " ABCDEFGH" 8 := by decide

/-- C4 (amended): the parser drops records lacking lat or lon, drops
records whose computed distance exceeds the configured radius, and any
produced record defaults absent altitude, speed and track to 0, carries
the input label stripped of surrounding whitespace and truncated to at
most 8 characters, and uses the fixed placeholder when the label is
absent. -/
theorem record_parser_fields (cfg : Config) (T : TrigOps) (data : RawAircraft) :
    (data.lat = none ∨ data.lon = none → parse_aircraft cfg T data = ParseOutcome.dropped)
      ∧ (∀ lat lon, data.lat = some lat → data.lon = some lon →
          (cfg.RADIUS_NM : ℚ) < (calculate_distance_bearing T cfg.LAT cfg.LON lat lon).1 →
          parse_aircraft cfg T data = ParseOutcome.dropped)
      ∧ (∀ a, parse_aircraft cfg T data = ParseOutcome.parsed a →
          (data.alt_baro = none → a.altitude = 0)
          ∧ (data.gs = none → a.speed = 0)
          ∧ (data.track = none → a.track = 0)
          ∧ a.callsign = pyTake (pyStrip (data.flight.getD "UNKNOWN")) 8
          ∧ a.callsign.length ≤ 8
          ∧ (data.flight = none → a.callsign = "UNKNOWN")) := by
  obtain ⟨dlat, dlon, dhex, dflight, dalt, dgs, dtrack⟩ := data
  refine ⟨?_, ?_, ?_⟩
  · rintro (h | h)
    · subst h
      cases dlon <;> rfl
    · subst h
      cases dlat <;> rfl
  · intro lat lon hlat hlon hfar
    subst hlat
    subst hlon
    simp only [parse_aircraft]
    rw [if_pos hfar]
  · intro a ha
    cases dlat with
    | none => exact absurd ha (by simp [parse_aircraft])
    | some lat =>
      cases dlon with
      | none => exact absurd ha (by simp [parse_aircraft])
      | some lon =>
        simp only [parse_aircraft] at ha
        split at ha
        · exact absurd ha (by simp)
        · cases dhex with
          | none => exact absurd ha (by simp)
          | some hx =>
            injection ha with h
            subst h
            refine ⟨fun h => by dsimp only at h; subst h; rfl,
              fun h => by dsimp only at h; subst h; rfl,
              fun h => by dsimp only at h; subst h; rfl, rfl, ?_,
              fun h => by dsimp only at h; subst h; rfl⟩
            simp [pyTake, pyStrip, String.length, List.length_take]

/-- Concrete raw record for the parser witness: position and hex present,
every other key absent. -/
def wRawD : RawAircraft := ⟨some 0, some 0, some "ABC", none, none, none, none⟩

/-- The record wRawD parses to under wCfg and toyTrig. -/
def wParsed : Aircraft := ⟨"abc", "UNKNOWN", 0, 0, 0, 0, 0, 0, 0, false⟩

unseal Rat.mul Rat.add Rat.sub Rat.inv Rat.ofScientific in
/-- C4 (witness): the defaults and the placeholder label on a concrete
record with absent optional keys. -/
theorem record_parser_fields_witness :
    (wRawD.alt_baro = none → wParsed.altitude = 0)
      ∧ (wRawD.gs = none → wParsed.speed = 0)
      ∧ (wRawD.track = none → wParsed.track = 0)
      ∧ wParsed.callsign = pyTake (pyStrip (wRawD.flight.getD "UNKNOWN")) 8
      ∧ wParsed.callsign.length ≤ 8
      ∧ (wRawD.flight = none → wParsed.callsign = "UNKNOWN") :=
  (record_parser_fields wCfg toyTrig wRawD).2.2 wParsed (by decide)

/-- The re-sort condition of update_aircraft: membership change, or a
common identity whose distance moved by more than 0.5 NM. -/
def resortTriggered (s : SortedAircraftManager) (l : List Aircraft) : Bool :=
  !sameKeys (buildDict l) s.aircraft_dict || distanceChanged (buildDict l) s.aircraft_dict

/-- C2: starting from a state with no pending re-sort, an update performs a
full re-sort ascending by distance exactly when the identity sets differ or
some common identity moved by more than 0.5 NM; otherwise the previously
computed order is returned unchanged by every subsequent ranked query. -/
theorem ordered_view_resort_iff (s : SortedAircraftManager) (l : List Aircraft)
    (h : s.needs_resort = false) :
    (resortTriggered s l = true →
        (update_aircraft s l).sorted_list = List.insertionSort byDistance l
          ∧ List.Sorted byDistance ((update_aircraft s l).sorted_list))
      ∧ (resortTriggered s l = false →
          ∀ m, get_sorted_aircraft (update_aircraft s l) m = get_sorted_aircraft s m) := by
  cases hk : sameKeys (buildDict l) s.aircraft_dict <;>
    cases hd : distanceChanged (buildDict l) s.aircraft_dict <;>
      simp only [update_aircraft, resortTriggered, get_sorted_aircraft, hk, hd, h,
        Bool.not_false, Bool.not_true, Bool.false_or, Bool.true_or, Bool.or_false,
        Bool.or_true, if_true, if_false, Bool.false_eq_true, Bool.true_eq_false,
        ite_true, ite_false, reduceIte, forall_const, IsEmpty.forall_iff, true_and,
        and_true, implies_true] <;>
      exact List.sorted_insertionSort byDistance l

/-- Aircraft used in jitter witnesses: identity and distance only. -/
def mkA (hx : String) (d : ℚ) : Aircraft := ⟨hx, hx, 0, 0, 0, 0, 0, d, 0, false⟩

/-- A two-aircraft ordered view state with no pending re-sort. -/
def wS0 : SortedAircraftManager :=
  ⟨[("a", mkA "a" 1), ("b", mkA "b" 2)], [mkA "a" 1, mkA "b" 2], false⟩

unseal Rat.mul Rat.add Rat.sub Rat.inv Rat.ofScientific in
/-- C2 (witness): a 0.3 NM shift of one existing identity does not trigger
a re-sort and leaves the ranked query output unchanged. -/
theorem ordered_view_resort_iff_witness :
    wS0.needs_resort = false
      ∧ resortTriggered wS0 [mkA "a" 1.3, mkA "b" 2] = false
      ∧ get_sorted_aircraft (update_aircraft wS0 [mkA "a" 1.3, mkA "b" 2]) (some 5)
          = get_sorted_aircraft wS0 (some 5) :=
  ⟨rfl, by decide,
    (ordered_view_resort_iff wS0 [mkA "a" 1.3, mkA "b" 2] rfl).2 (by decide) (some 5)⟩

/-- C9: when identities are unchanged and every common identity moved by at
most 0.5 NM, the ranked query keeps returning the record objects of the
previous update (the stale sorted list), even though the dict now holds the
newly supplied records. -/
theorem ordered_view_stale_records (s : SortedAircraftManager) (l : List Aircraft)
    (h : s.needs_resort = false)
    (hk : sameKeys (buildDict l) s.aircraft_dict = true)
    (hd : distanceChanged (buildDict l) s.aircraft_dict = false) :
    get_sorted_aircraft (update_aircraft s l) none = s.sorted_list
      ∧ (update_aircraft s l).aircraft_dict = buildDict l := by
  simp [update_aircraft, get_sorted_aircraft, hk, hd, h]

/-- A replacement record for identity a with new altitude 999 and distance
1.3, used to exhibit staleness. -/
def wA9 : Aircraft := ⟨"a", "a", 0, 0, 999, 0, 0, 1.3, 0, false⟩

unseal Rat.mul Rat.add Rat.sub Rat.inv Rat.ofScientific in
/-- C9 (witness): after an update carrying new altitude and distance values
within the jitter band, the ranked query still returns the old records, not
the newly supplied list. -/
theorem ordered_view_stale_records_witness :
    get_sorted_aircraft (update_aircraft wS0 [wA9, mkA "b" 2]) none = wS0.sorted_list
      ∧ (update_aircraft wS0 [wA9, mkA "b" 2]).aircraft_dict = buildDict [wA9, mkA "b" 2]
      ∧ get_sorted_aircraft (update_aircraft wS0 [wA9, mkA "b" 2]) none ≠ [wA9, mkA "b" 2] := by
  have h := ordered_view_stale_records wS0 [wA9, mkA "b" 2] rfl (by decide) (by decide)
  exact ⟨h.1, h.2, by decide⟩

/-- C8 (counterexample): a ranked query with maxCount 0 returns the whole
current order, not the empty sequence, because the Python guard tests
truthiness and 0 is falsy. -/
theorem ranked_slice_zero_counterexample :
    get_sorted_aircraft ⟨[], [wA], false⟩ (some 0) = [wA]
      ∧ get_sorted_aircraft ⟨[], [wA], false⟩ (some 0) ≠ [wA].take 0 := by decide

/-- C8 (amended): the ranked query returns the first maxCount entries of
the current order when maxCount is positive, and the whole order when
maxCount is 0 or absent; the query reads the state without modifying it. -/
theorem ranked_slice_spec (s : SortedAircraftManager) (m : Nat) :
    (0 < m → get_sorted_aircraft s (some m) = s.sorted_list.take m)
      ∧ get_sorted_aircraft s (some 0) = s.sorted_list
      ∧ get_sorted_aircraft s none = s.sorted_list := by
  refine ⟨?_, rfl, rfl⟩
  intro hm
  simp [get_sorted_aircraft, Nat.pos_iff_ne_zero.mp hm]

/-- C8 (witness): a one-element slice of a concrete view. -/
theorem ranked_slice_spec_witness :
    get_sorted_aircraft ⟨[], [wA], false⟩ (some 1)
      = (SortedAircraftManager.mk [] [wA] false).sorted_list.take 1 :=
  (ranked_slice_spec ⟨[], [wA], false⟩ 1).1 (by decide)

theorem alookup_append_of_none [DecidableEq K] {l1 : List (K × V)} {k : K}
    (l2 : List (K × V)) (h : alookup l1 k = none) :
    alookup (l1 ++ l2) k = alookup l2 k := by
  induction l1 with
  | nil => rfl
  | cons p ps ih =>
    rw [alookup] at h
    by_cases hp : p.1 = k
    · simp [hp] at h
    · rw [if_neg hp] at h
      simpa [alookup, hp] using ih h

theorem alookup_map_replace [DecidableEq K] (l : List (K × V)) (k : K) (v : V)
    (h : (alookup l k).isSome = true) :
    alookup (l.map (fun p => if p.1 = k then (k, v) else p)) k = some v := by
  induction l with
  | nil => simp [alookup] at h
  | cons p ps ih =>
    by_cases hp : p.1 = k
    · simp [alookup, hp]
    · rw [alookup, if_neg hp] at h
      simpa [alookup, hp] using ih h

theorem alookup_dictInsert_self [DecidableEq K] (l : List (K × V)) (k : K) (v : V) :
    alookup (dictInsert l k v) k = some v := by
  rw [dictInsert]
  split
  · exact alookup_map_replace l k v (by assumption)
  · rename_i h
    have hn : alookup l k = none := by
      cases halk : alookup l k
      · rfl
      · rw [halk] at h
        simp at h
    rw [alookup_append_of_none _ hn]
    simp [alookup]

/-- C6: with the geometry cache enabled, a lookup that recorded an entry
and a second call within the TTL return the identical memoized value even
when the second call passes different lat/lon arguments, and a call at or
after TTL expiry recomputes the position from its arguments via the
equirectangular projection and restamps the entry. -/
theorem coordinate_cache_spec (cfg : Config) (c : CoordinateCache) (id : String)
    (lat lon lat2 lon2 cx cy r t0 t1 : ℚ)
    (henabled : cfg.ENABLE_COORDINATE_CACHE = true) :
    (alookup c.cache id = none → t1 - t0 < cfg.COORDINATE_CACHE_TTL →
        (get_screen_pos cfg (get_screen_pos cfg c id lat lon cx cy r t0).2 id lat2 lon2 cx cy r t1).1
            = (get_screen_pos cfg c id lat lon cx cy r t0).1
          ∧ (get_screen_pos cfg (get_screen_pos cfg c id lat lon cx cy r t0).2 id lat2 lon2 cx cy r t1).2
              = (get_screen_pos cfg c id lat lon cx cy r t0).2)
      ∧ (∀ v, alookup c.cache id = some v →
          t1 - ((alookup c.last_update id).getD 0) < cfg.COORDINATE_CACHE_TTL →
          get_screen_pos cfg c id lat2 lon2 cx cy r t1 = (v, c))
      ∧ (∀ v, alookup c.cache id = some v →
          cfg.COORDINATE_CACHE_TTL ≤ t1 - ((alookup c.last_update id).getD 0) →
          (get_screen_pos cfg c id lat lon cx cy r t1).1
              = calculate_pos c cfg lat lon cx cy r
            ∧ alookup (get_screen_pos cfg c id lat lon cx cy r t1).2.cache id
                = some (calculate_pos c cfg lat lon cx cy r)
            ∧ alookup (get_screen_pos cfg c id lat lon cx cy r t1).2.last_update id = some t1) := by
  have hearly : ¬ cfg.ENABLE_COORDINATE_CACHE = false := by simp [henabled]
  refine ⟨?_, ?_, ?_⟩
  · intro hmiss hfresh
    have h1 : get_screen_pos cfg c id lat lon cx cy r t0
        = (calculate_pos c cfg lat lon cx cy r,
           ⟨dictInsert c.cache id (calculate_pos c cfg lat lon cx cy r),
            dictInsert c.last_update id t0, c.lat_cos_cache, c.range_km⟩) := by
      rw [get_screen_pos, if_neg hearly, hmiss]
    rw [h1]
    rw [get_screen_pos, if_neg hearly]
    dsimp only
    rw [alookup_dictInsert_self, alookup_dictInsert_self, Option.getD_some]
    dsimp only
    rw [if_pos hfresh]
    exact ⟨rfl, rfl⟩
  · intro v hhit hfresh
    rw [get_screen_pos, if_neg hearly, hhit]
    dsimp only
    rw [if_pos hfresh]
  · intro v hhit hstale
    rw [get_screen_pos, if_neg hearly, hhit]
    dsimp only
    rw [if_neg (not_lt.mpr hstale)]
    exact ⟨rfl, alookup_dictInsert_self _ _ _, alookup_dictInsert_self _ _ _⟩

/-- A fresh coordinate cache under wCfg (origin latitude 0, so the
precomputed cosine is replaced by 1). -/
def wCC : CoordinateCache := mkCoordinateCache wCfg 1

unseal Rat.mul Rat.add Rat.sub Rat.inv Rat.ofScientific in
/-- C6 (witness): a second call half a second later with different lat/lon
arguments returns the memoized value and leaves the cache unchanged. -/
theorem coordinate_cache_spec_witness :
    (get_screen_pos wCfg (get_screen_pos wCfg wCC "a" 0 0 100 100 50 0).2 "a" 1 1 100 100 50 (1/2)).1
        = (get_screen_pos wCfg wCC "a" 0 0 100 100 50 0).1
      ∧ (get_screen_pos wCfg (get_screen_pos wCfg wCC "a" 0 0 100 100 50 0).2 "a" 1 1 100 100 50 (1/2)).2
          = (get_screen_pos wCfg wCC "a" 0 0 100 100 50 0).2 :=
  (coordinate_cache_spec wCfg wCC "a" 0 0 1 1 100 100 50 0 (1/2) rfl).1 rfl (by decide)

theorem alookup_isSome_iff [DecidableEq K] (l : List (K × V)) (k : K) :
    (alookup l k).isSome = true ↔ k ∈ l.map Prod.fst := by
  induction l with
  | nil => simp [alookup]
  | cons p ps ih =>
    by_cases hp : p.1 = k
    · simp [alookup, hp]
    · simp [alookup, hp, ih, Ne.symm hp]

theorem alookup_eq_none_iff [DecidableEq K] (l : List (K × V)) (k : K) :
    alookup l k = none ↔ k ∉ l.map Prod.fst := by
  rw [← alookup_isSome_iff (V := V) l k]
  cases alookup l k <;> simp

theorem alookup_append_of_some [DecidableEq K] {l1 : List (K × V)} {k : K} {v : V}
    (l2 : List (K × V)) (h : alookup l1 k = some v) :
    alookup (l1 ++ l2) k = some v := by
  induction l1 with
  | nil => simp [alookup] at h
  | cons p ps ih =>
    by_cases hp : p.1 = k
    · rw [alookup, if_pos hp] at h
      simpa [alookup, hp] using h
    · rw [alookup, if_neg hp] at h
      simpa [alookup, hp] using ih h

theorem lerase_cons_perm [DecidableEq K] {l : List K} {a : K} (h : a ∈ l) :
    (a :: lerase l a).Perm l := by
  induction l with
  | nil => cases h
  | cons x xs ih =>
    by_cases hx : x = a
    · subst hx
      rw [lerase, if_pos rfl]
    · rw [lerase, if_neg hx]
      have ha : a ∈ xs := by
        cases h with
        | head => exact absurd rfl hx
        | tail _ h2 => exact h2
      exact (List.Perm.swap x a (lerase xs a)).trans ((ih ha).cons x)

theorem lerase_sublist [DecidableEq K] (l : List K) (a : K) : (lerase l a).Sublist l := by
  induction l with
  | nil => exact List.Sublist.refl []
  | cons x xs ih =>
    rw [lerase]
    by_cases hx : x = a
    · rw [if_pos hx]
      exact List.sublist_cons_self x xs
    · rw [if_neg hx]
      exact ih.cons₂ x

theorem lerase_of_not_mem [DecidableEq K] : ∀ {l : List K} {a : K}, a ∉ l → lerase l a = l
  | [], _, _ => rfl
  | x :: xs, a, h => by
    have h1 : ¬ x = a := fun hx => h (by rw [hx]; exact List.mem_cons_self a xs)
    have h2 : a ∉ xs := fun hx => h (List.mem_cons_of_mem x hx)
    rw [lerase, if_neg h1, lerase_of_not_mem h2]

theorem lerase_perm [DecidableEq K] {l1 l2 : List K} (a : K) (h : l1.Perm l2) :
    (lerase l1 a).Perm (lerase l2 a) := by
  by_cases hm : a ∈ l1
  · have hm2 : a ∈ l2 := h.mem_iff.mp hm
    exact (List.perm_cons a).mp (((lerase_cons_perm hm).trans h).trans (lerase_cons_perm hm2).symm)
  · have hm2 : a ∉ l2 := fun hx => hm (h.mem_iff.mpr hx)
    rw [lerase_of_not_mem hm, lerase_of_not_mem hm2]
    exact h

theorem not_mem_lerase_self [DecidableEq K] {l : List K} (hnd : l.Nodup) (a : K) :
    a ∉ lerase l a := by
  induction l with
  | nil => exact List.not_mem_nil a
  | cons x xs ih =>
    rw [lerase]
    by_cases hx : x = a
    · rw [if_pos hx]
      subst hx
      exact (List.nodup_cons.mp hnd).1
    · rw [if_neg hx]
      intro hmem
      cases hmem with
      | head => exact hx rfl
      | tail _ h2 => exact ih (List.nodup_cons.mp hnd).2 h2

theorem length_lerase_of_mem [DecidableEq K] {l : List K} {a : K} (h : a ∈ l) :
    (lerase l a).length + 1 = l.length := by
  induction l with
  | nil => cases h
  | cons x xs ih =>
    rw [lerase]
    by_cases hx : x = a
    · rw [if_pos hx]
      rfl
    · have ha : a ∈ xs := by
        cases h with
        | head => exact absurd rfl hx
        | tail _ h2 => exact h2
      rw [if_neg hx]
      simp only [List.length_cons]
      rw [← ih ha]

theorem map_fst_aerase [DecidableEq K] (l : List (K × V)) (b : K) :
    (aerase l b).map Prod.fst = lerase (l.map Prod.fst) b := by
  induction l with
  | nil => rfl
  | cons p ps ih =>
    rw [aerase, List.map_cons, lerase]
    by_cases hp : p.1 = b
    · rw [if_pos hp, if_pos hp]
    · rw [if_neg hp, if_neg hp, List.map_cons, ih]

theorem aerase_append_left [DecidableEq K] {l1 : List (K × V)} {b : K}
    (l2 : List (K × V)) (h : b ∈ l1.map Prod.fst) :
    aerase (l1 ++ l2) b = aerase l1 b ++ l2 := by
  induction l1 with
  | nil => cases h
  | cons p ps ih =>
    rw [List.cons_append, aerase, aerase]
    by_cases hp : p.1 = b
    · rw [if_pos hp, if_pos hp]
    · have hb : b ∈ ps.map Prod.fst := by
        rw [List.map_cons] at h
        cases h with
        | head => exact absurd rfl hp
        | tail _ h2 => exact h2
      rw [if_neg hp, if_neg hp, List.cons_append, ih hb]

theorem alookup_aerase_ne [DecidableEq K] {a b : K} (l : List (K × V)) (h : a ≠ b) :
    alookup (aerase l b) a = alookup l a := by
  induction l with
  | nil => rfl
  | cons p ps ih =>
    rw [aerase]
    by_cases hp : p.1 = b
    · rw [if_pos hp, alookup, if_neg (by rw [hp]; exact fun hba => h hba.symm)]
    · rw [if_neg hp, alookup, alookup, ih]

theorem alookup_aerase_self [DecidableEq K] {l : List (K × V)}
    (hnd : (l.map Prod.fst).Nodup) (b : K) :
    alookup (aerase l b) b = none := by
  rw [alookup_eq_none_iff, map_fst_aerase]
  exact not_mem_lerase_self hnd b

theorem filterMap_alookup_keys [DecidableEq K] (m : List (K × V)) :
    ∀ ks : List K, (∀ k ∈ ks, (alookup m k).isSome = true) →
      (ks.filterMap (fun k => (alookup m k).map (fun v => (k, v)))).map Prod.fst = ks
  | [], _ => rfl
  | k :: ks, h => by
    obtain ⟨v, hv⟩ := Option.isSome_iff_exists.mp (h k (List.mem_cons_self k ks))
    simp [List.filterMap_cons, hv,
      filterMap_alookup_keys m ks (fun x hx => h x (List.mem_cons_of_mem k hx))]

theorem render_hit_eq [DecidableEq K] (f : K → V) (c : TextCache K V) (key : K) (v : V)
    (h : alookup c.cache key = some v) :
    render f true c key
      = (v, ⟨c.cache, lerase c.access_order key ++ [key], c.max_size, c.last_clear⟩) := by
  rw [render, if_neg (show ¬ (true = false) by simp), h]

theorem render_miss_keep_eq [DecidableEq K] (f : K → V) (c : TextCache K V) (key : K)
    (h : alookup c.cache key = none) (hcap : ¬ c.max_size < c.cache.length + 1) :
    render f true c key
      = (f key, ⟨c.cache ++ [(key, f key)], c.access_order ++ [key],
          c.max_size, c.last_clear⟩) := by
  rw [render, if_neg (show ¬ (true = false) by simp), h]
  dsimp only
  rw [if_neg (by simpa using hcap)]

theorem render_miss_evict_eq [DecidableEq K] (f : K → V) (c : TextCache K V) (key : K)
    (h : alookup c.cache key = none) (hcap : c.max_size < c.cache.length + 1) :
    render f true c key
      = (f key, ⟨aerase (c.cache ++ [(key, f key)]) ((c.access_order ++ [key]).headD key),
          (c.access_order ++ [key]).tail, c.max_size, c.last_clear⟩) := by
  rw [render, if_neg (show ¬ (true = false) by simp), h]
  dsimp only
  rw [if_pos (by simpa using hcap)]

theorem cacheInvariant_render [DecidableEq K] (f : K → V) (c : TextCache K V) (key : K)
    (hmax : 1 ≤ c.max_size) (hinv : CacheInvariant c) :
    CacheInvariant (render f true c key).2 := by
  obtain ⟨hlen, hnd, hperm⟩ := hinv
  cases hl : alookup c.cache key with
  | some v =>
    rw [render_hit_eq f c key v hl]
    refine ⟨hlen, hnd, ?_⟩
    have hkmem : key ∈ c.cache.map Prod.fst := (alookup_isSome_iff _ _).mp (by rw [hl]; rfl)
    have hkord : key ∈ c.access_order := hperm.mem_iff.mpr hkmem
    exact ((List.perm_append_singleton key _).trans (lerase_cons_perm hkord)).trans hperm
  | none =>
    have hknot : key ∉ c.cache.map Prod.fst := (alookup_eq_none_iff _ _).mp hl
    have hkord : key ∉ c.access_order := fun hx => hknot (hperm.mem_iff.mp hx)
    have hordlen : c.access_order.length = c.cache.length := by
      rw [hperm.length_eq, List.length_map]
    by_cases hcap : c.max_size < c.cache.length + 1
    · rw [render_miss_evict_eq f c key hl hcap]
      cases hord : c.access_order with
      | nil =>
        rw [hord] at hordlen
        simp only [List.length_nil] at hordlen
        omega
      | cons o ot =>
        have homem : o ∈ c.cache.map Prod.fst := by
          refine hperm.mem_iff.mp ?_
          rw [hord]
          exact List.mem_cons_self o ot
        have honotkey : ¬ o = key := by
          intro he
          refine hkord ?_
          rw [hord, he]
          exact List.mem_cons_self key ot
        simp only [List.cons_append, List.headD_cons, List.tail_cons]
        rw [aerase_append_left _ homem]
        have hmapfst : (aerase c.cache o ++ [(key, f key)]).map Prod.fst
            = lerase (c.cache.map Prod.fst) o ++ [key] := by
          simp only [List.map_append, map_fst_aerase, List.map_cons, List.map_nil]
        have hlera := length_lerase_of_mem homem
        have hlaer : (aerase c.cache o).length = (lerase (c.cache.map Prod.fst) o).length := by
          rw [← List.length_map (aerase c.cache o) Prod.fst, map_fst_aerase]
        refine ⟨?_, ?_, ?_⟩
        · simp only [List.length_append, List.length_cons, List.length_nil]
          simp only [List.length_map] at hlera
          omega
        · rw [hmapfst]
          have h1 : (lerase (c.cache.map Prod.fst) o).Nodup := (lerase_sublist _ _).nodup hnd
          have h2 : key ∉ lerase (c.cache.map Prod.fst) o :=
            fun hx => hknot ((lerase_sublist _ _).subset hx)
          exact ((List.perm_append_singleton key _).nodup_iff).mpr
            (List.nodup_cons.mpr ⟨h2, h1⟩)
        · rw [hmapfst]
          have hot : ot.Perm (lerase (c.cache.map Prod.fst) o) := by
            have h3 := lerase_perm o hperm
            rw [hord, lerase, if_pos rfl] at h3
            exact h3
          exact hot.append_right [key]
    · rw [render_miss_keep_eq f c key hl hcap]
      have hmapfst : (c.cache ++ [(key, f key)]).map Prod.fst
          = c.cache.map Prod.fst ++ [key] := by
        simp only [List.map_append, List.map_cons, List.map_nil]
      refine ⟨?_, ?_, ?_⟩
      · simp only [List.length_append, List.length_cons, List.length_nil]
        omega
      · rw [hmapfst]
        exact ((List.perm_append_singleton key _).nodup_iff).mpr
          (List.nodup_cons.mpr ⟨hknot, hnd⟩)
      · rw [hmapfst]
        exact hperm.append_right [key]

theorem cacheInvariant_clear_old [DecidableEq K] (c : TextCache K V) (now : ℚ)
    (hinv : CacheInvariant c) : CacheInvariant (clear_old c now) := by
  obtain ⟨hlen, hnd, hperm⟩ := hinv
  rw [clear_old]
  split
  · split
    · rename_i h300 h100
      have hordnd : c.access_order.Nodup := (hperm.nodup_iff).mpr hnd
      have hkeys : ∀ k ∈ c.access_order.drop (c.access_order.length - 100),
          (alookup c.cache k).isSome = true := by
        intro k hkmem
        have hk2 : k ∈ c.access_order := (List.drop_sublist _ _).subset hkmem
        exact (alookup_isSome_iff _ _).mpr (hperm.mem_iff.mp hk2)
      have hmapfst := filterMap_alookup_keys c.cache _ hkeys
      have hord : c.access_order.length = c.cache.length := by
        rw [hperm.length_eq, List.length_map]
      refine ⟨?_, ?_, ?_⟩
      · dsimp only
        rw [← List.length_map _ Prod.fst, hmapfst, List.length_drop]
        omega
      · dsimp only
        rw [hmapfst]
        exact (List.drop_sublist _ _).nodup hordnd
      · dsimp only
        rw [hmapfst]
    · exact ⟨hlen, hnd, hperm⟩
  · exact ⟨hlen, hnd, hperm⟩

theorem max_size_render [DecidableEq K] (f : K → V) (c : TextCache K V) (key : K) :
    (render f true c key).2.max_size = c.max_size := by
  cases hl : alookup c.cache key with
  | some v => rw [render_hit_eq f c key v hl]
  | none =>
    by_cases hcap : c.max_size < c.cache.length + 1
    · rw [render_miss_evict_eq f c key hl hcap]
    · rw [render_miss_keep_eq f c key hl hcap]

theorem max_size_clear_old [DecidableEq K] (c : TextCache K V) (now : ℚ) :
    (clear_old c now).max_size = c.max_size := by
  rw [clear_old]
  split
  · split <;> rfl
  · rfl

/-- C10: with the glyph cache enabled and capacity at least 1, every
sequence of render and compaction calls starting from the empty cache
keeps the entry count at most the capacity and the access order list a
permutation of the cached keys (each cached key exactly once, no other
key). -/
theorem glyph_cache_invariant (K V : Type) [DecidableEq K] (f : K → V) (maxSize : Nat)
    (t0 : ℚ) (ops : List (CacheOp K)) (hmax : 1 ≤ maxSize) :
    CacheInvariant (applyCacheOps f (mkTextCache K V maxSize t0) ops) := by
  suffices h : ∀ c : TextCache K V, CacheInvariant c → 1 ≤ c.max_size →
      CacheInvariant (applyCacheOps f c ops) by
    exact h (mkTextCache K V maxSize t0)
      ⟨Nat.zero_le _, List.nodup_nil, List.Perm.refl _⟩ hmax
  induction ops with
  | nil => exact fun c hc _ => hc
  | cons op ops ih =>
    intro c hc hm
    have hmstep : 1 ≤ (applyCacheOp f c op).max_size := by
      cases op with
      | renderOp k => rw [applyCacheOp, max_size_render]; exact hm
      | clearOldOp t => rw [applyCacheOp, max_size_clear_old]; exact hm
    have hcstep : CacheInvariant (applyCacheOp f c op) := by
      cases op with
      | renderOp k => exact cacheInvariant_render f c k hm hc
      | clearOldOp t => exact cacheInvariant_clear_old c t hc
    exact ih (applyCacheOp f c op) hcstep hmstep

/-- C5: with the glyph cache enabled and the dict at capacity, a hit
returns the cached value, leaves the dict unchanged and moves the key to
the most recently used end; inserting a new distinct key evicts exactly
one entry, the head of the access order list (the least recently used by
access), keeping every other entry; and a lookup of an existing key
between the inserts protects that key from the next eviction (capacity at
least 2, since at capacity 1 the looked-up key is itself the only and
least recently used entry). -/
theorem glyph_cache_lru (K V : Type) [DecidableEq K] (f : K → V) (c : TextCache K V)
    (hinv : CacheInvariant c) (hfull : c.cache.length = c.max_size) :
    (∀ key v, alookup c.cache key = some v →
        (render f true c key).1 = v
        ∧ (render f true c key).2.cache = c.cache
        ∧ (render f true c key).2.access_order.getLast? = some key)
      ∧ (∀ key, alookup c.cache key = none → 1 ≤ c.max_size →
          (render f true c key).2.cache.length = c.max_size
          ∧ alookup (render f true c key).2.cache (c.access_order.headD key) = none
          ∧ alookup (render f true c key).2.cache key = some (f key)
          ∧ ∀ k2, k2 ≠ c.access_order.headD key → k2 ≠ key →
              alookup (render f true c key).2.cache k2 = alookup c.cache k2)
      ∧ (∀ key v key2, 2 ≤ c.max_size → alookup c.cache key = some v →
          alookup c.cache key2 = none →
          alookup (render f true (render f true c key).2 key2).2.cache key = some v) := by
  obtain ⟨hlen, hnd, hperm⟩ := hinv
  have hordlen : c.access_order.length = c.cache.length := by
    rw [hperm.length_eq, List.length_map]
  refine ⟨?_, ?_, ?_⟩
  · intro key v hl
    rw [render_hit_eq f c key v hl]
    exact ⟨rfl, rfl, List.getLast?_concat _⟩
  · intro key hl hmax
    have hknot : key ∉ c.cache.map Prod.fst := (alookup_eq_none_iff _ _).mp hl
    have hkord : key ∉ c.access_order := fun hx => hknot (hperm.mem_iff.mp hx)
    have hcap : c.max_size < c.cache.length + 1 := by omega
    rw [render_miss_evict_eq f c key hl hcap]
    cases hord : c.access_order with
    | nil =>
      rw [hord] at hordlen
      simp only [List.length_nil] at hordlen
      omega
    | cons o ot =>
      have homem : o ∈ c.cache.map Prod.fst := by
        refine hperm.mem_iff.mp ?_
        rw [hord]
        exact List.mem_cons_self o ot
      have honotkey : ¬ o = key := by
        intro he
        refine hkord ?_
        rw [hord, he]
        exact List.mem_cons_self key ot
      simp only [List.cons_append, List.headD_cons, List.tail_cons]
      rw [aerase_append_left _ homem]
      have hlera := length_lerase_of_mem homem
      have hlaer : (aerase c.cache o).length = (lerase (c.cache.map Prod.fst) o).length := by
        rw [← List.length_map (aerase c.cache o) Prod.fst, map_fst_aerase]
      refine ⟨?_, ?_, ?_, ?_⟩
      · simp only [List.length_append, List.length_cons, List.length_nil]
        simp only [List.length_map] at hlera
        omega
      · rw [alookup_append_of_none _ (alookup_aerase_self hnd o), alookup]
        rw [if_neg (fun h => honotkey h.symm)]
        rfl
      · rw [alookup_append_of_none _ (by rw [alookup_aerase_ne c.cache (fun h => hkord (by rw [hord, h]; exact List.mem_cons_self o ot))]; exact hl)]
        rw [alookup, if_pos rfl]
      · intro k2 hk2o hk2key
        have he := alookup_aerase_ne (b := o) c.cache hk2o
        cases hc2 : alookup c.cache k2 with
        | some w =>
          exact alookup_append_of_some _ (he.trans hc2)
        | none =>
          rw [hc2] at he
          rw [alookup_append_of_none _ he, alookup, if_neg (fun h => hk2key h.symm)]
          rfl
  · intro key v key2 hmax2 hl hl2
    have hkmem : key ∈ c.cache.map Prod.fst := (alookup_isSome_iff _ _).mp (by rw [hl]; rfl)
    have hkord : key ∈ c.access_order := hperm.mem_iff.mpr hkmem
    have hk2not : key2 ∉ c.cache.map Prod.fst := (alookup_eq_none_iff _ _).mp hl2
    have hlerlen := length_lerase_of_mem hkord
    cases hle : lerase c.access_order key with
    | nil =>
      rw [hle] at hlerlen
      simp only [List.length_nil, List.length_map] at hlerlen
      omega
    | cons o1 rest =>
      have ho1mem : o1 ∈ c.access_order := by
        refine (lerase_sublist c.access_order key).subset ?_
        rw [hle]
        exact List.mem_cons_self o1 rest
      have ho1keys : o1 ∈ c.cache.map Prod.fst := hperm.mem_iff.mp ho1mem
      have hkeyn : key ∉ lerase c.access_order key :=
        not_mem_lerase_self ((hperm.nodup_iff).mpr hnd) key
      have hkeyo1 : key ≠ o1 := by
        intro he
        refine hkeyn ?_
        rw [hle, he]
        exact List.mem_cons_self o1 rest
      have hcap2 : c.max_size < c.cache.length + 1 := by omega
      have hstate : (render f true c key).2
          = (⟨c.cache, o1 :: (rest ++ [key]), c.max_size, c.last_clear⟩ : TextCache K V) := by
        rw [render_hit_eq f c key v hl, hle]
        rfl
      rw [hstate]
      rw [render_miss_evict_eq f
        ⟨c.cache, o1 :: (rest ++ [key]), c.max_size, c.last_clear⟩ key2 hl2 hcap2]
      dsimp only
      simp only [List.cons_append, List.headD_cons, List.tail_cons]
      rw [aerase_append_left _ ho1keys]
      exact alookup_append_of_some _ (by rw [alookup_aerase_ne c.cache hkeyo1]; exact hl)

/-- C10 (witness): the invariant after a concrete sequence of renders and
a compaction on a capacity-1 cache. -/
theorem glyph_cache_invariant_witness :
    CacheInvariant (applyCacheOps (fun k => k) (mkTextCache Nat Nat 1 0)
      [CacheOp.renderOp 1, CacheOp.renderOp 2, CacheOp.clearOldOp 400]) :=
  glyph_cache_invariant Nat Nat (fun k => k) 1 0
    [CacheOp.renderOp 1, CacheOp.renderOp 2, CacheOp.clearOldOp 400] (by decide)

/-- A concrete glyph cache at capacity 2 holding keys 1 and 2, key 1 least
recently used. -/
def wTC : TextCache Nat Nat := ⟨[(1, 10), (2, 20)], [1, 2], 2, 0⟩

/-- C5 (witness): looking key 1 up and then inserting the new key 3 at
capacity evicts key 2, not the protected key 1. -/
theorem glyph_cache_lru_witness :
    alookup (render (fun k => k) true (render (fun k => k) true wTC 1).2 3).2.cache 1 = some 10 :=
  (glyph_cache_lru Nat Nat (fun k => k) wTC
    ⟨by decide, by decide, List.Perm.refl _⟩ rfl).2.2 1 10 3 (by decide) rfl rfl
